import Mathlib

/-!
Verification development for the TEASAR skeletonization core
(`igneous/tasks/skeletonization/skeletonization.py`).

The Python source is shallowly embedded here.  Conventions:

* voxels are triples of naturals, fields are functions `Vox → ℚ`
  (f32 arithmetic is idealized to exact rationals);
* `Option ℚ` models an extended value where `none` stands for `+∞`
  (numpy `inf`, e.g. the distance of a voxel the traversal never reached);
* the collaborators from `igneous.dijkstra` and `igneous.skeletontricks`
  are not part of the embedded file; they are modelled from the
  specification (each such definition carries a doc comment starting
  with `Modelled from the spec:`);
* loops whose termination is not structural use explicit fuel; fuel
  bounds are chosen large enough that a run that terminates in the
  source terminates inside the fuel, while a source-level infinite loop
  exhausts the fuel and is reported as divergence.
-/

/-- A voxel coordinate `(x, y, z)`. -/
abbrev Vox := ℕ × ℕ × ℕ

/-- A grid shape `(W, H, D)`. -/
abbrev Shape := ℕ × ℕ × ℕ

/-- Anisotropic voxel spacing `(sx, sy, sz)` in physical units. -/
abbrev Aniso := ℚ × ℚ × ℚ

/-- All voxels of a `W×H×D` grid, in lexicographic `(x, y, z)` order with
`z` fastest — the flattening order numpy uses for `argmax`/`unravel_index`
(C order). -/
def voxelList (s : Shape) : List Vox :=
  (List.range s.1).flatMap (fun x =>
    (List.range s.2.1).flatMap (fun y =>
      (List.range s.2.2).map (fun z => (x, y, z))))

/-- The 26 offsets `{-1,0,1}³ \ {0}`. -/
def offsets26 : List (ℤ × ℤ × ℤ) :=
  ([-1, 0, 1] : List ℤ).flatMap (fun dx =>
    ([-1, 0, 1] : List ℤ).flatMap (fun dy =>
      ([-1, 0, 1] : List ℤ).map (fun dz => (dx, dy, dz)))) |>.filter
        (fun d => !(d.1 = 0 && d.2.1 = 0 && d.2.2 = 0))

/-- In-bounds 26-connected neighbors of a voxel. -/
def neighbors (s : Shape) (v : Vox) : List Vox :=
  offsets26.filterMap (fun d =>
    let nx := (v.1 : ℤ) + d.1
    let ny := (v.2.1 : ℤ) + d.2.1
    let nz := (v.2.2 : ℤ) + d.2.2
    if 0 ≤ nx ∧ nx < (s.1 : ℤ) ∧ 0 ≤ ny ∧ ny < (s.2.1 : ℤ) ∧
        0 ≤ nz ∧ nz < (s.2.2 : ℤ) then
      some (nx.toNat, ny.toNat, nz.toNat)
    else none)

/-- `a > b` on extended rationals where `none` is `+∞` (numpy `inf`).
`inf > inf` is false, matching IEEE comparison of equal infinities. -/
def extGT : Option ℚ → Option ℚ → Bool
  | none, none => false
  | none, some _ => true
  | some _, none => false
  | some a, some b => decide (b < a)

/-- `np.max` over the whole grid of a rational field (maximum of all
entries; `0` for a degenerate empty grid, which numpy would reject).  The
fold keeps the running maximum by comparison rather than `max` so that
the accumulator stays in evaluated form. -/
def maxOverGrid (s : Shape) (f : Vox → ℚ) : ℚ :=
  match voxelList s with
  | [] => 0
  | a :: rest => rest.foldl (fun m v => if f v > m then f v else m) (f a)

/-- `np.unravel_index (np.argmax f) shape`: the first voxel in C order
attaining the maximum of `f` over the grid. -/
def argmaxGrid (s : Shape) (f : Vox → ℚ) : Vox :=
  match voxelList s with
  | [] => (0, 0, 0)
  | a :: rest =>
    (rest.foldl (fun (b : Vox × ℚ) v => if f v > b.2 then (v, f v) else b)
      (a, f a)).1

/-- Tail-recursive counting loop whose accumulator is forced to a
literal at every step (pattern-matching on it), so evaluation depth stays
constant per voxel. -/
def countAux (labels : Vox → Bool) : List Vox → ℕ → ℕ
  | [], n => n
  | v :: r, 0 => countAux labels r (if labels v then 1 else 0)
  | v :: r, m + 1 => countAux labels r (if labels v then m + 2 else m + 1)

/-- `np.count_nonzero` of a boolean mask. -/
def countNonzero (s : Shape) (labels : Vox → Bool) : ℕ :=
  countAux labels (voxelList s) 0

/-- Squared anisotropic Euclidean distance between two voxels,
`‖aniso ⊙ (u - v)‖²` — rational, unlike the distance itself. -/
def distSq (aniso : Aniso) (u v : Vox) : ℚ :=
  (aniso.1 * ((u.1 : ℤ) - (v.1 : ℤ) : ℤ)) ^ 2 +
  (aniso.2.1 * ((u.2.1 : ℤ) - (v.2.1 : ℤ) : ℤ)) ^ 2 +
  (aniso.2.2 * ((u.2.2 : ℤ) - (v.2.2 : ℤ) : ℤ)) ^ 2

/-- Exact model of the comparison `‖aniso ⊙ (u - v)‖ ≤ R` (the norm is
irrational in general, so the comparison is carried out on squares; a
negative radius admits nothing since norms are nonnegative). -/
def anisoDistLE (aniso : Aniso) (u v : Vox) (R : ℚ) : Bool :=
  if R < 0 then false else decide (distSq aniso u v ≤ R ^ 2)

/-- Exact model of `np.linalg.norm (aniso * (u - v)) > R`. -/
def anisoDistGT (aniso : Aniso) (u v : Vox) (R : ℚ) : Bool :=
  !anisoDistLE aniso u v R


/-! ## Traversal engine (`igneous.dijkstra`), modelled from the spec -/

/-- One settled entry of the traversal: voxel, cumulative cost, parent. -/
abbrev DijkEntry := Vox × ℚ × Vox

/-- Remove the first entry of minimal cumulative cost from a nonempty
tentative list (ties broken by insertion order, as the spec requires a
deterministic tie-break keyed on insertion order). -/
def pickMin (l : List DijkEntry) : Option (DijkEntry × List DijkEntry) :=
  match l with
  | [] => none
  | a :: rest =>
    let m := rest.foldl (fun m e => min m e.2.1) a.2.1
    let i := l.findIdx (fun e => e.2.1 ≤ m)
    match l.get? i with
    | none => none
    | some e => some (e, l.eraseIdx i)

/-- Modelled from the spec: the monotone best-first (Dijkstra-style)
expansion underlying `igneous.dijkstra` (§4.1 of the spec); the code
itself is a compiled extension that is not part of the embedded source.
`neigh` gives the admissible neighbors of a voxel, `cost u v` the cost of
relaxing from `u` into `v` (`none` = `+∞` = do not relax).  Entries are
settled in nondecreasing order of cumulative cost with ties broken by
insertion order; lazy deletion drops stale tentative entries.  Returns
the settled list `(voxel, distance, parent)`. -/
def dijkLoop (neigh : Vox → List Vox) (cost : Vox → Vox → Option ℚ) :
    ℕ → List DijkEntry → List DijkEntry → List DijkEntry
  | 0, settled, _ => settled
  | fuel + 1, settled, tent =>
    match pickMin tent with
    | none => settled
    | some (e, rest) =>
      if settled.any (fun s => s.1 = e.1) then
        dijkLoop neigh cost fuel settled rest
      else
        let settled' := settled ++ [e]
        let tent' := (neigh e.1).foldl (fun t nb =>
          if settled'.any (fun s => s.1 = nb) then t
          else
            match cost e.1 nb with
            | none => t
            | some c => t ++ [(nb, e.2.1 + c, e.1)]) rest
        dijkLoop neigh cost fuel settled' tent'

/-- Modelled from the spec: run the best-first expansion from `source`
with distance `0`; the fuel `27·N + 2` dominates the number of settle
and lazy-delete steps on an `N`-voxel grid (each settled voxel pushes at
most 26 tentative entries). -/
def dijkstra (s : Shape) (neigh : Vox → List Vox)
    (cost : Vox → Vox → Option ℚ) (source : Vox) : List DijkEntry :=
  dijkLoop neigh cost (27 * (s.1 * (s.2.1 * s.2.2)) + 2) [] [(source, 0, source)]

/-- Distance of a voxel in a settled list (`none` = never reached = `+∞`,
the value the source arrays carry as `inf`). -/
def lookupDist (settled : List DijkEntry) (v : Vox) : Option ℚ :=
  (settled.find? (fun e => e.1 = v)).map (fun e => e.2.1)

/-- Parent of a voxel in a settled list (`none` = the unvisited
sentinel). -/
def lookupParent (settled : List DijkEntry) (v : Vox) : Option Vox :=
  (settled.find? (fun e => e.1 = v)).map (fun e => e.2.2)

/-- Modelled from the spec: `igneous.dijkstra.euclidean_distance_field`
(§4.1) — best-first expansion from `source` restricted to in-mask voxels
under anisotropic Euclidean edge weights.  The weights `‖aniso ⊙ (v-u)‖`
are irrational in general, hence the weight function `w` is a parameter
of the model; concrete theorems instantiate it with rational values that
realize the same comparisons as the true weights on the grid at hand. -/
def euclidean_distance_field (s : Shape) (w : Vox → Vox → ℚ)
    (labels : Vox → Bool) (source : Vox) : Vox → Option ℚ :=
  lookupDist (dijkstra s (fun u => (neighbors s u).filter labels)
    (fun u v => some (w u v)) source)

/-- Modelled from the spec: `igneous.dijkstra.parental_field` (§4.1) —
best-first expansion from `source` where entering voxel `v` costs
`field v`; a `+∞` (`none`) field value is never relaxed.  Returns the
parent pointers; `parents source = source`, unreached voxels carry the
unvisited sentinel (`none`). -/
def parental_field (s : Shape) (field : Vox → Option ℚ) (source : Vox) :
    Vox → Option Vox :=
  lookupParent (dijkstra s (neighbors s) (fun _ v => field v) source)

/-- Modelled from the spec: `igneous.dijkstra.path_from_parents` — chase
parent pointers from `target` until a self-parented voxel (the root) is
reached, producing the path target-first, root-last (§4.4 step 2 fixes
this orientation; §9: "the source appends target-first paths").  `none`
when the chase meets the unvisited sentinel or does not terminate within
the fuel. -/
def path_from_parents_chase (parents : Vox → Option Vox) :
    ℕ → Vox → Option (List Vox)
  | 0, _ => none
  | fuel + 1, v =>
    match parents v with
    | none => none
    | some p => if p = v then some [v]
        else (path_from_parents_chase parents fuel p).map (fun rest => v :: rest)

/-- Modelled from the spec: `path_from_parents` with fuel one more than
the grid size (a sentinel-free parent chase visits each voxel at most
once). -/
def path_from_parents (s : Shape) (parents : Vox → Option Vox)
    (target : Vox) : Option (List Vox) :=
  path_from_parents_chase parents (s.1 * (s.2.1 * s.2.2) + 1) target

/-! ## `igneous.skeletontricks` collaborators, modelled from the spec -/

/-- Modelled from the spec: `igneous.skeletontricks.first_label` — the
deterministic choice of an arbitrary in-mask voxel: the lexicographically
smallest index with `mask = true` (§4.2), `none` when the mask is
empty. -/
def first_label (s : Shape) (labels : Vox → Bool) : Option Vox :=
  (voxelList s).find? labels

/-- Modelled from the spec: `igneous.skeletontricks.find_target` — the
in-mask voxel maximizing the field (§4.4 step 1), scanning in C order and
keeping the first maximum; `+∞` (`none`) field values dominate finite
ones as numpy `inf` does.  `none` when no voxel is in-mask. -/
def find_target (s : Shape) (labels : Vox → Bool) (field : Vox → Option ℚ) :
    Option Vox :=
  ((voxelList s).foldl (fun acc v =>
    if labels v then
      match acc with
      | none => some (v, field v)
      | some b => if extGT (field v) b.2 then some (v, field v) else acc
    else acc) none).map (fun b => b.1)

/-- Per-axis half-width of the invalidation cuboid rolled at path vertex
`c`: `max (DBF c · scale) const / anisotropy_axis` (§4.4 step 4), and the
cuboid membership test for voxel `x`. -/
def inCuboid (DBF : Vox → ℚ) (scale const : ℚ) (aniso : Aniso)
    (c x : Vox) : Bool :=
  let r := max (DBF c * scale) const
  decide ((Int.natAbs ((x.1 : ℤ) - (c.1 : ℤ)) : ℚ) ≤ r / aniso.1) &&
  decide ((Int.natAbs ((x.2.1 : ℤ) - (c.2.1 : ℤ)) : ℚ) ≤ r / aniso.2.1) &&
  decide ((Int.natAbs ((x.2.2 : ℤ) - (c.2.2 : ℤ)) : ℚ) ≤ r / aniso.2.2)

/-- Modelled from the spec:
`igneous.skeletontricks.roll_invalidation_cube` (§4.4 step 4) — clear all
in-mask voxels inside an axis-aligned cuboid around each path vertex,
skipping voxels already in `invalid_vertices`; return how many voxels
were cleared together with the new mask. -/
def roll_invalidation_cube (s : Shape) (labels : Vox → Bool)
    (DBF : Vox → ℚ) (path : List Vox) (scale const : ℚ) (aniso : Aniso)
    (invalid : List Vox) : ℕ × (Vox → Bool) :=
  let cleared := (voxelList s).filter (fun x =>
    labels x && !decide (x ∈ invalid) &&
      path.any (fun c => inCuboid DBF scale const aniso c x))
  (cleared.length, fun x => labels x && !decide (x ∈ cleared))

/-- Modelled from the spec:
`igneous.skeletontricks.roll_invalidation_ball` (§4.4, soma only) — clear
all in-mask voxels within the anisotropic sphere of radius
`DBF root · soma_invalidation_scale + soma_invalidation_const` centered
at the root; return the count and the new mask. -/
def roll_invalidation_ball (s : Shape) (labels : Vox → Bool)
    (DBF : Vox → ℚ) (root : Vox) (sis sic : ℚ) (aniso : Aniso) :
    ℕ × (Vox → Bool) :=
  let R := DBF root * sis + sic
  let cleared := (voxelList s).filter (fun x =>
    labels x && anisoDistLE aniso x root R)
  (cleared.length, fun x => labels x && !decide (x ∈ cleared))

/-! ## PDRF builder (source `is_power_of_two`, `compute_pdrf`) -/

/-- `is_power_of_two` from the source: `num != 0 and (num & (num-1)) == 0`
(the source's float-integrality guard is vacuous for a natural
exponent). -/
def is_power_of_two (n : ℕ) : Bool :=
  n != 0 && (n &&& (n - 1)) == 0

/-- The repeated self-multiplication loop of `compute_pdrf`:
`for _ in range(k): PDRF *= PDRF` applied to a single value. -/
def sqIter : ℕ → ℚ → ℚ
  | 0, x => x
  | k + 1, x => sqIter k (x * x)

/-- The penalty power as the source computes it: for a power-of-two
exponent below `2^16`, square `log2 e` times; otherwise use the general
power. -/
def pdrfPow (e : ℕ) (x : ℚ) : ℚ :=
  if is_power_of_two e && decide (e < 2 ^ 16) then sqIter (Nat.log2 e) x
  else x ^ e

/-- `compute_pdrf` from the source:
`PDRF = pdrf_scale * (1 - DBF * M) ^ pdrf_exponent + DAF` with
`M = 1 / dbf_max ** 1.01`.  The real power `dbf_max ** 1.01` is not
rational-representable, so the model takes the function
`pow101 : ℚ → ℚ` (standing for `x ↦ x ** 1.01`) as a parameter;
theorems constrain or instantiate it (e.g. `pow101 1 = 1` exactly).
A `+∞` DAF entry (unreachable voxel) propagates to a `+∞` PDRF entry
exactly as `inf + finite = inf` does in the source. -/
def compute_pdrf (pow101 : ℚ → ℚ) (dbf_max pdrf_scale : ℚ)
    (pdrf_exponent : ℕ) (DBF : Vox → ℚ) (DAF : Vox → Option ℚ) :
    Vox → Option ℚ :=
  fun v => (DAF v).map (fun d =>
    pdrf_scale * pdrfPow pdrf_exponent (1 - DBF v * (1 / pow101 dbf_max)) + d)

/-- The general-power branch of `compute_pdrf` applied unconditionally:
`PDRF = pdrf_scale * ((1 - DBF * M) ** pdrf_exponent) + DAF`. -/
def compute_pdrf_general (pow101 : ℚ → ℚ) (dbf_max pdrf_scale : ℚ)
    (pdrf_exponent : ℕ) (DBF : Vox → ℚ) (DAF : Vox → Option ℚ) :
    Vox → Option ℚ :=
  fun v => (DAF v).map (fun d =>
    pdrf_scale * (1 - DBF v * (1 / pow101 dbf_max)) ^ pdrf_exponent + d)

/-! ## Root selection (source `find_root`, soma branch of `TEASAR`) -/

/-- `find_root` from the source: pick any in-mask voxel, compute the
Euclidean distance field from it, and return the in-mask voxel maximizing
that field (`None` on an empty mask). -/
def find_root (s : Shape) (w : Vox → Vox → ℚ) (labels : Vox → Bool) :
    Option Vox :=
  match first_label s labels with
  | none => none
  | some v0 => find_target s labels (euclidean_distance_field s w labels v0)

/-- The data the `TEASAR` prologue (lines 61–82) computes before the
traversals: possibly re-derived mask and DBF, `dbf_max`, the root and the
soma radius. -/
structure Prep where
  labels : Vox → Bool
  DBF : Vox → ℚ
  dbf_max : ℚ
  root : Option Vox
  somaRadius : ℚ
  somaMode : Bool

/-- The `TEASAR` prologue.  In soma mode
(`max DBF > soma_detection_threshold`) the mask is hole-filled, the DBF
recomputed by a fresh EDT, and the root placed at the arg-max of the new
DBF; otherwise `find_root` picks the root.  `fill` and `edtF` model the
external collaborators `scipy.ndimage.binary_fill_holes` and `edt.edt`,
which the spec leaves abstract ("any correct implementation
suffices"). -/
def teasarPrep (s : Shape) (w : Vox → Vox → ℚ)
    (fill : (Vox → Bool) → Vox → Bool) (edtF : (Vox → Bool) → Vox → ℚ)
    (labels0 : Vox → Bool) (DBF0 : Vox → ℚ)
    (soma_detection_threshold sis sic : ℚ) : Prep :=
  let dbf_max0 := maxOverGrid s DBF0
  if dbf_max0 > soma_detection_threshold then
    let labels := fill labels0
    let DBF := edtF labels
    let m := maxOverGrid s DBF
    ⟨labels, DBF, m, some (argmaxGrid s DBF), m * sis + sic, true⟩
  else
    ⟨labels0, DBF0, dbf_max0, find_root s w labels0, 0, false⟩

/-! ## Path extraction (source `compute_paths`) -/

/-- The soma-suppression step of `compute_paths` (lines 146–151):
`path = concatenate((path[:1], path[dist_to_soma_root > soma_radius]))` —
keep the first vertex unconditionally and every vertex farther than
`soma_radius` from the root. -/
def somaSuppress (aniso : Aniso) (root : Vox) (somaRadius : ℚ)
    (p : List Vox) : List Vox :=
  p.take 1 ++ p.filter (fun v => anisoDistGT aniso v root somaRadius)

/-- Insert each path vertex into the `invalid_vertices` key set (a dict
in the source; modelled as an insertion-ordered duplicate-free list). -/
def addInvalid (invalid : List Vox) (p : List Vox) : List Vox :=
  p.foldl (fun l v => if v ∈ l then l else l ++ [v]) invalid

/-- Outcome of the `compute_paths` loop.  `crash` models a Python
exception inside an iteration (arg-max of an empty selection, or a parent
chase that visits the unvisited sentinel); `diverges` models a loop that
does not terminate within the fuel. -/
inductive PathsResult where
  | ok (ps : List (List Vox))
  | crash
  | diverges
deriving DecidableEq

/-- The body of `while valid_labels > 0` in `compute_paths`. -/
def computePathsLoop (s : Shape) (root : Vox) (DBF : Vox → ℚ)
    (PDRF : Vox → Option ℚ) (parents : Vox → Option Vox)
    (scale const : ℚ) (aniso : Aniso) (somaMode : Bool) (somaRadius : ℚ) :
    ℕ → (Vox → Bool) → ℤ → List Vox → List (List Vox) → PathsResult
  | 0, _, valid, _, acc =>
    if valid ≤ 0 then .ok acc else .diverges
  | fuel + 1, labels, valid, invalid, acc =>
    if valid ≤ 0 then .ok acc
    else
      match find_target s labels PDRF with
      | none => .crash
      | some target =>
        match path_from_parents s parents target with
        | none => .crash
        | some path0 =>
          let path := if somaMode then somaSuppress aniso root somaRadius path0
            else path0
          let r := roll_invalidation_cube s labels DBF path scale const aniso
            invalid
          computePathsLoop s root DBF PDRF parents scale const aniso somaMode
            somaRadius fuel r.2 (valid - (r.1 : ℤ)) (addInvalid invalid path)
            (acc ++ [path])

/-- `compute_paths` from the source: repeatedly pick the in-mask voxel
maximizing PDRF, chase the parent pointers back to the root, optionally
cull vertices inside the soma radius, roll the invalidation cube along
the path, and decrement `valid_labels` (initialized to
`np.count_nonzero(labels)`) by the number of cleared voxels.  Fuel
`count + 2` suffices for every terminating run (each productive iteration
clears at least one voxel; an unproductive iteration freezes the state
forever). -/
def compute_paths (s : Shape) (root : Vox) (labels : Vox → Bool)
    (DBF : Vox → ℚ) (PDRF : Vox → Option ℚ) (parents : Vox → Option Vox)
    (scale const : ℚ) (aniso : Aniso) (somaMode : Bool) (somaRadius : ℚ) :
    PathsResult :=
  let n := countNonzero s labels
  computePathsLoop s root DBF PDRF parents scale const aniso somaMode
    somaRadius (n + 2) labels (n : ℤ) (if somaMode then [root] else []) []

/-! ## Path downsampling (`TEASAR` lines 109–112) -/

/-- Every `k`-th element of a list (indices `0, k, 2k, …`); the recursion
drops `k - 1` elements after each kept head, so stride `k = 0` behaves
like stride 1 (the source instead raises on stride 0; the guard lives in
`downsamplePath`). -/
def everyK (k : ℕ) : List Vox → List Vox
  | [] => []
  | a :: rest => a :: everyK k (rest.drop (k - 1))
termination_by l => l.length
decreasing_by
  simp only [List.length_drop, List.length_cons]
  omega

/-- Python `p[-1:]`: the last element as a singleton, or empty. -/
def lastSlice (p : List Vox) : List Vox :=
  match p.getLast? with
  | none => []
  | some a => [a]

/-- The downsampling statement of `TEASAR`:
`np.concatenate((path[0:-2:k], path[-1:]))`.  `none` models the
`ValueError: slice step cannot be zero` Python raises for `k = 0`. -/
def downsamplePath (k : ℕ) (p : List Vox) : Option (List Vox) :=
  if k = 0 then none
  else some (everyK k (p.take (p.length - 2)) ++ lastSlice p)

/-- Downsample every extracted path (the `for i, path in enumerate(paths)`
loop). -/
def downsampleAll (k : ℕ) : List (List Vox) → Option (List (List Vox))
  | [] => some []
  | p :: rest =>
    match downsamplePath k p, downsampleAll k rest with
    | some q, some qs => some (q :: qs)
    | _, _ => none

/-! ## Tree assembly (source `path_union`) -/

/-- The adjacency map `tree` of `path_union`: keys in insertion order,
each with its set of children as an insertion-ordered duplicate-free
list.  (The source stores children in a Python `set`, whose iteration
order is unspecified; the model fixes insertion order, which only
permutes the emitted edge list.) -/
abbrev UnionTree := List (Vox × List Vox)

/-- Children of a voxel in the adjacency map (`defaultdict(set)` lookup:
empty when absent). -/
def treeChildren (t : UnionTree) (v : Vox) : List Vox :=
  match t.find? (fun e => e.1 = v) with
  | none => []
  | some e => e.2

/-- `tree[parent].add(child)`. -/
def treeAdd (t : UnionTree) (parent child : Vox) : UnionTree :=
  match t with
  | [] => [(parent, [child])]
  | e :: rest =>
    if e.1 = parent then
      (if child ∈ e.2 then e :: rest else (e.1, e.2 ++ [child]) :: rest)
    else e :: treeAdd rest parent child

/-- `if not child in tree: tree[child] = set()`. -/
def treeTouch (t : UnionTree) (v : Vox) : UnionTree :=
  if (t.find? (fun e => e.1 = v)).isSome then t else t ++ [(v, [])]

/-- The mutable state of the first loop of `path_union`: the adjacency
map, the voxel-to-dense-id map, the vertex list, and the id counter. -/
structure UnionState where
  tree : UnionTree
  ids : List (Vox × ℕ)
  verts : List Vox
  ct : ℕ

/-- The `if not v in tree_id: tree_id[v] = ct; vertices.append(v); ct += 1`
block of `path_union`. -/
def assignId (st : UnionState) (v : Vox) : UnionState :=
  if (st.ids.find? (fun e => e.1 = v)).isSome then st
  else ⟨st.tree, st.ids ++ [(v, st.ct)], st.verts ++ [v], st.ct + 1⟩

/-- One `(parent, child)` step of the first loop of `path_union`. -/
def unionStep (st : UnionState) (pc : Vox × Vox) : UnionState :=
  let st1 : UnionState := ⟨treeAdd st.tree pc.1 pc.2, st.ids, st.verts, st.ct⟩
  let st2 := assignId st1 pc.1
  let st3 : UnionState := ⟨treeTouch st2.tree pc.2, st2.ids, st2.verts, st2.ct⟩
  assignId st3 pc.2

/-- The consecutive `(parent, child)` pairs of a path
(`path[i], path[i+1]` for `i < len(path) - 1`). -/
def consecPairs (p : List Vox) : List (Vox × Vox) :=
  p.zip p.tail

/-- The first loop of `path_union` over all paths. -/
def buildUnion (paths : List (List Vox)) : UnionState :=
  paths.foldl (fun st p => (consecPairs p).foldl unionStep st) ⟨[], [], [], 0⟩

/-- Dense id of a voxel (`tree_id[v]`; the fallback 0 is never consulted
on ids the DFS reaches). -/
def idOf (ids : List (Vox × ℕ)) (v : Vox) : ℕ :=
  match ids.find? (fun e => e.1 = v) with
  | none => 0
  | some e => e.2

/-- The iterative DFS of `path_union`: pop a vertex, emit one edge per
child, push the children.  `none` when the fuel is exhausted, which
models the source looping forever (a self-edge `tree[v] ∋ v`, as produced
by soma-suppressed paths with an adjacent duplicate vertex, re-pushes `v`
indefinitely). -/
def unionDFS (tree : UnionTree) (ids : List (Vox × ℕ)) :
    ℕ → List Vox → List (ℕ × ℕ) → Option (List (ℕ × ℕ))
  | 0, stack, acc => if stack.isEmpty then some acc else none
  | _ + 1, [], acc => some acc
  | fuel + 1, parent :: rest, acc =>
    let kids := treeChildren tree parent
    unionDFS tree ids fuel (kids ++ rest)
      (acc ++ kids.map (fun c => (idOf ids parent, idOf ids c)))

/-- `path_union` from the source: build the adjacency map and dense ids,
then DFS from `paths[0][0]` emitting `(tree_id[parent], tree_id[child])`
edges.  Returns the vertex list and edge list; `none` models
non-termination of the DFS (fuel `2 ^ (pairs + 2)` dominates the number
of pops for any terminating run, since every pop corresponds to a
distinct directed path of the ≤ `pairs`-edge DAG).  An empty first path
would make `paths[0][0]` raise; that, too, maps to `none`. -/
def path_union (paths : List (List Vox)) :
    Option (List Vox × List (ℕ × ℕ)) :=
  match paths with
  | [] => some ([], [])
  | p0 :: _ =>
    match p0.head? with
    | none => none
    | some root =>
      let st := buildUnion paths
      let fuel := 2 ^ ((paths.map (fun p => p.length)).sum + 2)
      (unionDFS st.tree st.ids fuel [root] []).map (fun es => (st.verts, es))

/-! ## The full pipeline (source `TEASAR`) -/

/-- The options of `TEASAR` with their source defaults. -/
structure TeasarOpts where
  scale : ℚ
  const : ℚ
  anisotropy : Aniso
  soma_detection_threshold : ℚ
  pdrf_scale : ℚ
  pdrf_exponent : ℕ
  soma_invalidation_scale : ℚ
  soma_invalidation_const : ℚ
  path_downsample : ℕ
deriving DecidableEq

/-- The source defaults: `scale=10, const=10, anisotropy=(1,1,1),
soma_detection_threshold=5000, pdrf_scale=5000, pdrf_exponent=16,
soma_invalidation_scale=0.5, soma_invalidation_const=0,
path_downsample=1`. -/
def defaultOpts : TeasarOpts :=
  ⟨10, 10, (1, 1, 1), 5000, 5000, 16, 1 / 2, 0, 1⟩

/-- The skeleton `TEASAR` returns: vertex list, edge list (pairs of dense
vertex ids), and per-vertex radii from the DBF. -/
structure Skeleton where
  vertices : List Vox
  edges : List (ℕ × ℕ)
  radii : List ℚ
deriving DecidableEq

/-- The empty skeleton (`PrecomputedSkeleton()`). -/
def emptySkeleton : Skeleton := ⟨[], [], []⟩

/-- Outcome of a `TEASAR` invocation.  `sliceStepZero` is the
`ValueError` numpy raises in the downsampling step when
`path_downsample = 0`; `crash` and `diverges` are inherited from the
extraction and assembly stages. -/
inductive TeasarOutcome where
  | ok (s : Skeleton)
  | sliceStepZero
  | crash
  | diverges
deriving DecidableEq

/-- The traversal-and-extraction stage of `TEASAR` (lines 84–105): DAF
from the root, PDRF, parent field, the one-time soma invalidation ball,
then `compute_paths`. -/
def teasarPathsFrom (s : Shape) (w : Vox → Vox → ℚ) (pow101 : ℚ → ℚ)
    (pr : Prep) (root : Vox) (o : TeasarOpts) : PathsResult :=
  let DAF := euclidean_distance_field s w pr.labels root
  let PDRF := compute_pdrf pow101 pr.dbf_max o.pdrf_scale o.pdrf_exponent
    pr.DBF DAF
  let parents := parental_field s PDRF root
  let labels2 := if pr.somaMode then
      (roll_invalidation_ball s pr.labels pr.DBF root
        o.soma_invalidation_scale o.soma_invalidation_const o.anisotropy).2
    else pr.labels
  compute_paths s root labels2 pr.DBF PDRF parents o.scale o.const
    o.anisotropy pr.somaMode pr.somaRadius

/-- `TEASAR` from the source, end to end: prologue (root selection),
traversals, path extraction, downsampling, tree assembly, radii.
`w`, `pow101`, `fill`, `edtF` parametrize the irrational Euclidean edge
weights, the f32 power `** 1.01`, and the external hole-filling and EDT
collaborators. -/
def TEASAR (s : Shape) (w : Vox → Vox → ℚ) (pow101 : ℚ → ℚ)
    (fill : (Vox → Bool) → Vox → Bool) (edtF : (Vox → Bool) → Vox → ℚ)
    (labels0 : Vox → Bool) (DBF0 : Vox → ℚ) (o : TeasarOpts) :
    TeasarOutcome :=
  let pr := teasarPrep s w fill edtF labels0 DBF0 o.soma_detection_threshold
    o.soma_invalidation_scale o.soma_invalidation_const
  match pr.root with
  | none => .ok emptySkeleton
  | some root =>
    match teasarPathsFrom s w pow101 pr root o with
    | .crash => .crash
    | .diverges => .diverges
    | .ok paths =>
      match downsampleAll o.path_downsample paths with
      | none => .sliceStepZero
      | some dpaths =>
        match path_union dpaths with
        | none => .diverges
        | some ve => .ok ⟨ve.1, ve.2, ve.1.map pr.DBF⟩

/-! ## 26-connected reachability (used to state the disconnected-mask
property; not part of the source, which has no such computation) -/

/-- Breadth-first closure of the in-mask 26-connected component: pops the
queue head and enqueues unvisited in-mask neighbors. -/
def reach26Loop (s : Shape) (labels : Vox → Bool) :
    ℕ → List Vox → List Vox → List Vox
  | 0, visited, _ => visited
  | _ + 1, visited, [] => visited
  | fuel + 1, visited, q :: queue =>
    let fresh := (neighbors s q).filter
      (fun n => labels n && !decide (n ∈ visited))
    reach26Loop s labels fuel (visited ++ fresh) (queue ++ fresh)

/-- The voxels of the mask 26-reachable from `root` (the component the
extraction loop can actually invalidate). -/
def reachable26 (s : Shape) (labels : Vox → Bool) (root : Vox) : List Vox :=
  if labels root then
    reach26Loop s labels (s.1 * (s.2.1 * s.2.2) + 1) [root] [root]
  else []

/-! ## Concrete scenario inputs -/

/-- Unit edge weight: on grids whose in-mask voxel pairs are all unit
axis steps, this is exactly the anisotropic Euclidean weight for
`anisotropy = (1,1,1)`. -/
def wOne : Vox → Vox → ℚ := fun _ _ => 1

/-- Rational stand-in for `x ↦ x ** 1.01` used on inputs whose `dbf_max`
is `1`, where the true value is exactly `1 ** 1.01 = 1 = powId 1`. -/
def powId : ℚ → ℚ := fun x => x

/-- Hole-filling instance for masks without cavities (identity). -/
def fillId : (Vox → Bool) → Vox → Bool := fun l => l

/-- EDT instance for scenarios whose soma branch is never taken. -/
def edtZero : (Vox → Bool) → Vox → ℚ := fun _ _ => 0

/-- Scenario S2: 6×6×6 grid, single in-mask voxel `(5,5,5)`. -/
def c3shape : Shape := (6, 6, 6)

/-- Scenario S2 mask: one true voxel at `(5,5,5)`. -/
def c3labels : Vox → Bool := fun v => decide (v = (5, 5, 5))

/-- Scenario S2 DBF: `1` at `(5,5,5)`, `0` elsewhere. -/
def c3dbf : Vox → ℚ := fun v => if v = (5, 5, 5) then 1 else 0

/-- A 2×1×1 rod. -/
def rodShape : Shape := (2, 1, 1)

/-- Rod mask: both voxels in-mask. -/
def rodLabels : Vox → Bool := fun _ => true

/-- Rod DBF: `1` everywhere. -/
def rodDbf : Vox → ℚ := fun _ => 1

/-- The prologue data of the rod scenario under default options. -/
def rodPrep : Prep :=
  teasarPrep rodShape wOne fillId edtZero rodLabels rodDbf 5000 (1 / 2) 0

/-- A 5×3×1 T-shape: a rod `x = 0..4` at `y = 0` with an arm
`(2,1,0), (2,2,0)`. -/
def tShape : Shape := (5, 3, 1)

/-- T-shape mask. -/
def tLabels : Vox → Bool := fun v =>
  decide ((v.2.1 = 0 ∧ v.2.2 = 0) ∨
    (v.1 = 2 ∧ v.2.2 = 0 ∧ (v.2.1 = 1 ∨ v.2.1 = 2)))

/-- T-shape DBF: `1` on the mask. -/
def tDbf : Vox → ℚ := fun v => if tLabels v = true then 1 else 0

/-- Euclidean weights on the T grid: `1` for axis steps, `3/2` for planar
diagonal steps.  The true diagonal weight is `√2 ≈ 1.414…`; any value in
`(1, 2)` realizes the same Dijkstra comparisons on this grid, so the
rational `3/2` is a faithful stand-in. -/
def wT : Vox → Vox → ℚ := fun u v => if distSq (1, 1, 1) u v ≤ 1 then 1 else 3 / 2

/-- T-shape options: `scale = 0`, `const = 1/2` (so each invalidation
cuboid clears exactly its center voxel and two separate paths get
extracted), stride 1, defaults otherwise. -/
def tOpts : TeasarOpts := ⟨0, 1 / 2, (1, 1, 1), 5000, 5000, 16, 1 / 2, 0, 1⟩

/-- A 3×1×1 grid with a disconnected mask `{(0,0,0), (2,0,0)}`. -/
def discShape : Shape := (3, 1, 1)

/-- The disconnected mask. -/
def discLabels : Vox → Bool := fun v => decide (v = (0, 0, 0) ∨ v = (2, 0, 0))

/-- DBF of the disconnected mask: `1` on the mask. -/
def discDbf : Vox → ℚ := fun v => if discLabels v = true then 1 else 0

/-- Default options with `pdrf_exponent = 0`. -/
def optsExpZero : TeasarOpts := ⟨10, 10, (1, 1, 1), 5000, 5000, 0, 1 / 2, 0, 1⟩

/-- Default options with `path_downsample = 0`. -/
def optsStrideZero : TeasarOpts := ⟨10, 10, (1, 1, 1), 5000, 5000, 16, 1 / 2, 0, 0⟩

/-- Default options with negative physical-unit options
`scale = -1`, `const = -5`. -/
def optsNeg : TeasarOpts := ⟨-1, -5, (1, 1, 1), 5000, 5000, 16, 1 / 2, 0, 1⟩

/-- A 1×1×2 soma scenario: original DBF max `6` above the threshold `5`;
the recomputed EDT peaks at `(0,0,1)`. -/
def somaShape : Shape := (1, 1, 2)

/-- Soma scenario mask: all in-mask. -/
def somaLabels0 : Vox → Bool := fun _ => true

/-- Soma scenario original DBF. -/
def somaDbf0 : Vox → ℚ := fun v => if v = (0, 0, 0) then 6 else 1

/-- Soma scenario recomputed EDT. -/
def somaEdt : (Vox → Bool) → Vox → ℚ := fun _ v => if v = (0, 0, 1) then 7 else 2

/-! ## Lemmas about the grid folds -/
section FoldLemmas

/-- The `argmaxGrid` fold keeps a pair whose second component is the value
of the field at the first, never decreases it, and dominates every
scanned voxel. -/
theorem argmax_foldl_spec (f : Vox → ℚ) :
    ∀ (l : List Vox) (b : Vox × ℚ), b.2 = f b.1 →
      (l.foldl (fun (b : Vox × ℚ) v => if f v > b.2 then (v, f v) else b) b).2 =
        f (l.foldl (fun (b : Vox × ℚ) v => if f v > b.2 then (v, f v) else b) b).1 ∧
      b.2 ≤ (l.foldl (fun (b : Vox × ℚ) v => if f v > b.2 then (v, f v) else b) b).2 ∧
      ∀ v ∈ l, f v ≤ (l.foldl (fun (b : Vox × ℚ) v => if f v > b.2 then (v, f v) else b) b).2 := by
  intro l
  induction l with
  | nil => intro b hb; exact ⟨hb, le_refl _, by simp⟩
  | cons a rest ih =>
    intro b hb
    simp only [List.foldl_cons]
    by_cases h : f a > b.2
    · simp only [if_pos h]
      obtain ⟨h1, h2, h3⟩ := ih (a, f a) rfl
      refine ⟨h1, le_trans (le_of_lt h) h2, ?_⟩
      intro v hv
      rcases List.mem_cons.mp hv with hv | hv
      · subst hv; exact h2
      · exact h3 v hv
    · simp only [if_neg h]
      obtain ⟨h1, h2, h3⟩ := ih b hb
      refine ⟨h1, h2, ?_⟩
      intro v hv
      rcases List.mem_cons.mp hv with hv | hv
      · subst hv; exact le_trans (le_of_not_lt h) h2
      · exact h3 v hv

/-- `argmaxGrid` attains the maximum of the field over the grid. -/
theorem argmaxGrid_attains (s : Shape) (f : Vox → ℚ) :
    ∀ v ∈ voxelList s, f v ≤ f (argmaxGrid s f) := by
  intro v hv
  unfold argmaxGrid
  rcases h : voxelList s with _ | ⟨a, rest⟩
  · rw [h] at hv; simp at hv
  · rw [h] at hv
    obtain ⟨h1, h2, h3⟩ := argmax_foldl_spec f rest (a, f a) rfl
    rw [← h1]
    rcases List.mem_cons.mp hv with hv | hv
    · subst hv; exact h2
    · exact h3 v hv

/-- A field that vanishes on the whole grid has grid maximum `0`. -/
theorem maxOverGrid_zero (s : Shape) (f : Vox → ℚ)
    (h : ∀ v, f v = 0) : maxOverGrid s f = 0 := by
  unfold maxOverGrid
  rcases voxelList s with _ | ⟨a, rest⟩
  · rfl
  · show List.foldl (fun m v => if f v > m then f v else m) (f a) rest = 0
    rw [h a]
    induction rest with
    | nil => rfl
    | cons b r ih =>
      simp only [List.foldl_cons, h b, gt_iff_lt, lt_irrefl, if_false]
      exact ih

end FoldLemmas
/-! ## The power-of-two fast path of `compute_pdrf` -/

/-- A nonzero natural with `n &&& (n - 1) = 0` is the power of two
`2 ^ log2 n`. -/
theorem land_pred_eq_two_pow_log2 (n : ℕ) (h0 : n ≠ 0)
    (h : n &&& (n - 1) = 0) : n = 2 ^ Nat.log2 n := by
  by_contra hne
  have hlow : 2 ^ n.log2 ≤ n := Nat.log2_self_le h0
  have hhigh : n < 2 ^ (n.log2 + 1) := Nat.lt_log2_self
  have hlt : 2 ^ n.log2 < n := lt_of_le_of_ne hlow (fun hh => hne hh.symm)
  have hpow : 2 ^ (n.log2 + 1) = 2 * 2 ^ n.log2 := by
    rw [Nat.pow_succ]; ring
  have hd1 : n / 2 ^ n.log2 = 1 := by
    apply Nat.div_eq_of_lt_le
    · simpa using hlow
    · omega
  have hd2 : (n - 1) / 2 ^ n.log2 = 1 := by
    apply Nat.div_eq_of_lt_le
    · simp only [Nat.one_mul]; omega
    · omega
  have hb1 : n.testBit n.log2 = true := by
    rw [Nat.testBit_to_div_mod, hd1]; rfl
  have hb2 : (n - 1).testBit n.log2 = true := by
    rw [Nat.testBit_to_div_mod, hd2]; rfl
  have hb : (n &&& (n - 1)).testBit n.log2 = true := by
    rw [Nat.testBit_and, hb1, hb2]; rfl
  rw [h, Nat.zero_testBit] at hb
  exact Bool.false_ne_true hb

/-- The source guard `is_power_of_two` certifies `n = 2 ^ log2 n`. -/
theorem is_power_of_two_eq (n : ℕ) (h : is_power_of_two n = true) :
    n = 2 ^ Nat.log2 n := by
  unfold is_power_of_two at h
  simp only [Bool.and_eq_true, bne_iff_ne, ne_eq, beq_iff_eq] at h
  exact land_pred_eq_two_pow_log2 n h.1 h.2

/-- `k` squarings raise to the power `2 ^ k`. -/
theorem sqIter_eq_pow (k : ℕ) : ∀ x : ℚ, sqIter k x = x ^ 2 ^ k := by
  induction k with
  | zero => intro x; simp [sqIter]
  | succ k ih =>
    intro x
    show sqIter k (x * x) = x ^ 2 ^ (k + 1)
    rw [ih (x * x), ← pow_two, ← pow_mul, ← Nat.pow_succ']

/-- Both branches of `compute_pdrf` compute the same power: the repeated
self-multiplication fast path agrees with the general power wherever the
source takes it. -/
theorem pdrfPow_eq_pow (e : ℕ) (x : ℚ) : pdrfPow e x = x ^ e := by
  unfold pdrfPow
  cases hb : is_power_of_two e && decide (e < 2 ^ 16) with
  | false => simp [hb]
  | true =>
    simp only [hb, if_true]
    have hp : is_power_of_two e = true := (Bool.and_eq_true _ _ |>.mp hb).1
    rw [sqIter_eq_pow]
    exact congrArg (x ^ ·) (is_power_of_two_eq e hp).symm

/-! ## Lemmas about the downsampling slice -/

/-- Unfolding `everyK` on a cons cell. -/
theorem everyK_cons (k : ℕ) (a : Vox) (rest : List Vox) :
    everyK k (a :: rest) = a :: everyK k (rest.drop (k - 1)) := by
  rw [everyK]

/-- Unfolding `everyK` on the empty list. -/
theorem everyK_nil (k : ℕ) : everyK k [] = [] := by
  rw [everyK]

/-- The strided slice is a subsequence of its input. -/
theorem everyK_sublist (k : ℕ) (l : List Vox) : List.Sublist (everyK k l) l := by
  generalize hn : l.length = n
  induction n using Nat.strong_induction_on generalizing l with
  | _ n ih =>
    cases l with
    | nil => rw [everyK_nil]
    | cons a rest =>
      rw [everyK_cons]
      have hlt : (rest.drop (k - 1)).length < n := by
        subst hn
        simp only [List.length_drop, List.length_cons]
        omega
      have h1 : List.Sublist (everyK k (rest.drop (k - 1))) (rest.drop (k - 1)) :=
        ih _ hlt _ rfl
      exact (h1.trans (List.drop_sublist _ _)).cons₂ a

/-- Shared shape of a downsampled path, via the decomposition
`p = L ++ [x]`: the slice keeps `everyK` of the prefix up to `p[-2]`
(exclusive) and re-appends the last vertex. -/
theorem downsamplePath_concat (k : ℕ) (hk : k ≠ 0) (L : List Vox) (x : Vox) :
    downsamplePath k (L ++ [x]) =
      some (everyK k (L.take (L.length - 1)) ++ [x]) := by
  unfold downsamplePath
  rw [if_neg hk]
  congr 1
  have hlen : (L ++ [x]).length - 2 = L.length - 1 := by
    simp [List.length_append]
  rw [hlen]
  have htake : (L ++ [x]).take (L.length - 1) = L.take (L.length - 1) := by
    rw [List.take_append_eq_append_take]
    have : L.length - 1 - L.length = 0 := by omega
    rw [this]
    simp
  rw [htake]
  have hlast : lastSlice (L ++ [x]) = [x] := by
    unfold lastSlice
    rw [List.getLast?_concat]
  rw [hlast]

/-- C4: amended downsampling law.  For every nonempty path and stride
`k ≥ 1`, the downsampled path `path[0:-2:k] ++ path[-1:]` is a
subsequence of the original that is nonempty and preserves the last
vertex; the first vertex is preserved whenever the original path does
not have length exactly 2 (a length-2 path collapses to its last vertex
alone, losing the first — see the counterexample). -/
theorem teasar_downsample_endpoint_law (k : ℕ) (p : List Vox)
    (hk : 1 ≤ k) (hp : p ≠ []) :
    ∃ q, downsamplePath k p = some q ∧ List.Sublist q p ∧
      q ≠ [] ∧ q.getLast? = p.getLast? ∧
      (p.length ≠ 2 → q.head? = p.head?) := by
  rcases List.eq_nil_or_concat p with h | ⟨L, x, hLx⟩
  · exact absurd h hp
  · rw [List.concat_eq_append] at hLx
    subst hLx
    have hk0 : k ≠ 0 := by omega
    refine ⟨_, downsamplePath_concat k hk0 L x, ?_, ?_, ?_, ?_⟩
    · exact ((everyK_sublist k _).trans (List.take_sublist _ _)).append_right [x]
    · simp
    · rw [List.getLast?_concat, List.getLast?_concat]
    · intro hlen2
      cases L with
      | nil => simp [everyK_nil]
      | cons b L' =>
        cases L' with
        | nil =>
          exfalso
          apply hlen2
          simp
        | cons c L'' =>
          have htake : (b :: c :: L'').take ((b :: c :: L'').length - 1) =
              b :: (c :: L'').take ((c :: L'').length - 1) := by
            simp [List.take_succ_cons]
          rw [htake, everyK_cons]
          rfl

/-! ## Claims C4, C5, C6, C10 -/

/-- C4 counterexample: on a 2×1×1 rod the pipeline extracts the single
target-first path `[(0,0,0), (1,0,0)]`, and downsampling it with stride
1 yields `[(1,0,0)]`, whose first element differs from the original
first vertex — refuting the claim that downsampling always preserves the
first vertex. -/
theorem teasar_downsample_two_vertex_cex :
    rodPrep.root = some (1, 0, 0) ∧
    teasarPathsFrom rodShape wOne powId rodPrep (1, 0, 0) defaultOpts =
      .ok [[(0, 0, 0), (1, 0, 0)]] ∧
    downsamplePath 1 [((0, 0, 0) : Vox), (1, 0, 0)] = some [(1, 0, 0)] ∧
    ([((1, 0, 0) : Vox)]).head? ≠ ([((0, 0, 0) : Vox), (1, 0, 0)]).head? := by
  decide!

/-- C4 witness: the law applied to the singleton path with stride 1. -/
theorem teasar_downsample_endpoint_law_witness :
    1 ≤ 1 ∧ ([((0, 0, 0) : Vox)] ≠ []) ∧
    (∃ q, downsamplePath 1 [((0, 0, 0) : Vox)] = some q ∧
      List.Sublist q [((0, 0, 0) : Vox)] ∧ q ≠ [] ∧
      q.getLast? = ([((0, 0, 0) : Vox)]).getLast? ∧
      (([((0, 0, 0) : Vox)]).length ≠ 2 → q.head? = ([((0, 0, 0) : Vox)]).head?)) :=
  ⟨le_refl 1, by decide,
    teasar_downsample_endpoint_law 1 [((0, 0, 0) : Vox)] (le_refl 1) (by decide)⟩

/-- C5: the PDRF formula.  At every voxel the source computes
`PDRF v = DAF v + pdrf_scale · (1 - DBF v · M) ^ pdrf_exponent` with
`M = 1 / dbf_max ** 1.01` (the power modelled by `pow101`), a `+∞` DAF
propagating to `+∞`; and the penalty term is monotone-decreasing in the
DBF value on the range where `DBF · M ≤ 1` (which the factor `M`
guarantees whenever `dbf_max ≥ 1`). -/
theorem compute_pdrf_formula_monotone (pow101 : ℚ → ℚ)
    (dbf_max pdrf_scale : ℚ) (e : ℕ) (DBF : Vox → ℚ) (DAF : Vox → Option ℚ)
    (v : Vox) (d M : ℚ) (hM : M = 1 / pow101 dbf_max) (hv : DAF v = some d) :
    compute_pdrf pow101 dbf_max pdrf_scale e DBF DAF v =
      some (d + pdrf_scale * (1 - DBF v * M) ^ e) ∧
    (∀ x y : ℚ, 0 ≤ pdrf_scale → 0 ≤ M → 0 ≤ x → x ≤ y → y * M ≤ 1 →
      pdrf_scale * (1 - y * M) ^ e ≤ pdrf_scale * (1 - x * M) ^ e) := by
  subst hM
  constructor
  · unfold compute_pdrf
    rw [hv, Option.map_some', pdrfPow_eq_pow]
    exact congrArg some (add_comm _ _)
  · intro x y hs hm hx hxy hy1
    apply mul_le_mul_of_nonneg_left _ hs
    apply pow_le_pow_left₀
    · linarith [mul_le_mul_of_nonneg_right hxy hm]
    · linarith [mul_le_mul_of_nonneg_right hxy hm]

/-- C5 witness: the formula and monotonicity at `dbf_max = 1` (where the
f32 value of `1 ** 1.01` is exactly `1`), `pdrf_scale = 5000`,
`pdrf_exponent = 16`. -/
theorem compute_pdrf_formula_monotone_witness :
    ((1 : ℚ) = 1 / powId 1) ∧
    ((fun _ : Vox => some (0 : ℚ)) (0, 0, 0) = some 0) ∧
    (compute_pdrf powId 1 5000 16 (fun _ => 1 / 2) (fun _ => some 0) (0, 0, 0) =
      some (0 + 5000 * (1 - (1 / 2 : ℚ) * 1) ^ 16) ∧
    (∀ x y : ℚ, 0 ≤ (5000 : ℚ) → 0 ≤ (1 : ℚ) → 0 ≤ x → x ≤ y → y * 1 ≤ 1 →
      5000 * (1 - y * 1) ^ 16 ≤ 5000 * (1 - x * 1) ^ 16)) :=
  ⟨by decide!, rfl,
    compute_pdrf_formula_monotone powId 1 5000 16 (fun _ => 1 / 2)
      (fun _ => some 0) (0, 0, 0) 0 1 (by decide!) rfl⟩

/-- C6: for a power-of-two exponent below `2^16` the source takes the
repeated self-multiplication branch (`log2 e` squarings), and that branch
computes exactly the value of the general-power branch — the two code
paths are semantically equivalent. -/
theorem compute_pdrf_fast_path_equiv (pow101 : ℚ → ℚ)
    (dbf_max pdrf_scale : ℚ) (e : ℕ) (DBF : Vox → ℚ) (DAF : Vox → Option ℚ)
    (h1 : is_power_of_two e = true) (h2 : e < 2 ^ 16) (v : Vox) :
    (∀ x : ℚ, pdrfPow e x = sqIter (Nat.log2 e) x) ∧
    compute_pdrf pow101 dbf_max pdrf_scale e DBF DAF v =
      compute_pdrf_general pow101 dbf_max pdrf_scale e DBF DAF v := by
  constructor
  · intro x
    unfold pdrfPow
    rw [if_pos]
    rw [h1]
    simpa using h2
  · unfold compute_pdrf compute_pdrf_general
    rw [pdrfPow_eq_pow]

/-- C6 witness: the default exponent 16. -/
theorem compute_pdrf_fast_path_equiv_witness :
    is_power_of_two 16 = true ∧ 16 < 2 ^ 16 ∧
    ((∀ x : ℚ, pdrfPow 16 x = sqIter (Nat.log2 16) x) ∧
    compute_pdrf powId 1 5000 16 (fun _ => 1 / 2) (fun _ => some 0) (0, 0, 0) =
      compute_pdrf_general powId 1 5000 16 (fun _ => 1 / 2) (fun _ => some 0)
        (0, 0, 0)) :=
  ⟨by decide, by decide,
    compute_pdrf_fast_path_equiv powId 1 5000 16 (fun _ => 1 / 2)
      (fun _ => some 0) (by decide) (by decide) (0, 0, 0)⟩

/-- C10: in soma mode, a reconstructed path whose tip (first vertex) lies
strictly farther than `soma_radius` from the root is returned by the
suppression step with that tip duplicated at indices 0 and 1, so the
path handed to invalidation and `path_union` contains an adjacent
duplicate vertex. -/
theorem soma_suppression_duplicates_tip (aniso : Aniso) (root : Vox)
    (somaRadius : ℚ) (p : List Vox) (hd : Vox) (tl : List Vox)
    (hp : p = hd :: tl) (h : anisoDistGT aniso hd root somaRadius = true) :
    somaSuppress aniso root somaRadius p =
      hd :: hd :: tl.filter (fun v => anisoDistGT aniso v root somaRadius) ∧
    (somaSuppress aniso root somaRadius p).head? = some hd ∧
    (somaSuppress aniso root somaRadius p).tail.head? = some hd := by
  subst hp
  have heq : somaSuppress aniso root somaRadius (hd :: tl) =
      hd :: hd :: tl.filter (fun v => anisoDistGT aniso v root somaRadius) := by
    unfold somaSuppress
    simp [List.filter_cons, h]
  exact ⟨heq, by rw [heq]; rfl, by rw [heq]; rfl⟩


/-- C10 witness: tip `(3,0,0)` at distance 3 from the root, radius 1. -/
theorem soma_suppression_duplicates_tip_witness :
    ([((3, 0, 0) : Vox), (1, 0, 0), (2, 0, 0)] =
      ((3, 0, 0) : Vox) :: [((1, 0, 0) : Vox), (2, 0, 0)]) ∧
    anisoDistGT (1, 1, 1) (3, 0, 0) (0, 0, 0) 1 = true ∧
    (somaSuppress (1, 1, 1) (0, 0, 0) 1 [((3, 0, 0) : Vox), (1, 0, 0), (2, 0, 0)] =
      (3, 0, 0) :: (3, 0, 0) ::
        ([((1, 0, 0) : Vox), (2, 0, 0)]).filter
          (fun v => anisoDistGT (1, 1, 1) v (0, 0, 0) 1) ∧
    (somaSuppress (1, 1, 1) (0, 0, 0) 1
      [((3, 0, 0) : Vox), (1, 0, 0), (2, 0, 0)]).head? = some (3, 0, 0) ∧
    (somaSuppress (1, 1, 1) (0, 0, 0) 1
      [((3, 0, 0) : Vox), (1, 0, 0), (2, 0, 0)]).tail.head? = some (3, 0, 0)) :=
  ⟨rfl, by decide!,
    soma_suppression_duplicates_tip (1, 1, 1) (0, 0, 0) 1
      [((3, 0, 0) : Vox), (1, 0, 0), (2, 0, 0)] (3, 0, 0)
      [((1, 0, 0) : Vox), (2, 0, 0)] rfl (by decide!)⟩

/-! ## The vertex array of `path_union` -/

/-- A key is found in the id map exactly when it is among the mapped
keys. -/
theorem find?_key_isSome_iff (ids : List (Vox × ℕ)) (v : Vox) :
    (ids.find? (fun e => e.1 = v)).isSome = true ↔ v ∈ ids.map Prod.fst := by
  rw [List.find?_isSome]
  constructor
  · rintro ⟨e, he, hp⟩
    simp only [decide_eq_true_eq] at hp
    exact List.mem_map.mpr ⟨e, he, hp⟩
  · intro h
    obtain ⟨e, he, hfst⟩ := List.mem_map.mp h
    exact ⟨e, he, by simp [hfst]⟩

/-- `assignId` keeps the id keys aligned with the vertex list, keeps the
vertex list duplicate-free, extends it by exactly the assigned voxel, and
does not touch the adjacency map. -/
theorem assignId_spec (st : UnionState) (v : Vox)
    (hkeys : st.ids.map Prod.fst = st.verts) (hnd : st.verts.Nodup) :
    (assignId st v).ids.map Prod.fst = (assignId st v).verts ∧
    (assignId st v).verts.Nodup ∧
    (∀ u : Vox, u ∈ (assignId st v).verts ↔ u ∈ st.verts ∨ u = v) ∧
    (assignId st v).tree = st.tree := by
  unfold assignId
  by_cases h : (st.ids.find? (fun e => e.1 = v)).isSome = true
  · rw [if_pos h]
    have hv : v ∈ st.verts := hkeys ▸ (find?_key_isSome_iff st.ids v).mp h
    refine ⟨hkeys, hnd, ?_, rfl⟩
    intro u
    constructor
    · exact fun hu => Or.inl hu
    · rintro (hu | rfl)
      · exact hu
      · exact hv
  · rw [if_neg h]
    have hv : v ∉ st.verts := by
      rw [← hkeys]
      intro hmem
      exact h ((find?_key_isSome_iff st.ids v).mpr hmem)
    refine ⟨?_, ?_, ?_, rfl⟩
    · show (st.ids ++ [(v, st.ct)]).map Prod.fst = st.verts ++ [v]
      rw [List.map_append, hkeys]
      rfl
    · show (st.verts ++ [v]).Nodup
      rw [List.nodup_append]
      exact ⟨hnd, List.nodup_singleton v, by
        intro a ha hb
        rw [List.mem_singleton] at hb
        subst hb
        exact hv ha⟩
    · intro u
      show u ∈ st.verts ++ [v] ↔ u ∈ st.verts ∨ u = v
      rw [List.mem_append, List.mem_singleton]

/-- One `(parent, child)` step of `path_union` extends the vertex list by
exactly the two endpoints (each only if new), preserving alignment and
duplicate-freeness. -/
theorem unionStep_spec (st : UnionState) (pc : Vox × Vox)
    (hkeys : st.ids.map Prod.fst = st.verts) (hnd : st.verts.Nodup) :
    (unionStep st pc).ids.map Prod.fst = (unionStep st pc).verts ∧
    (unionStep st pc).verts.Nodup ∧
    ∀ u : Vox, u ∈ (unionStep st pc).verts ↔
      u ∈ st.verts ∨ u = pc.1 ∨ u = pc.2 := by
  unfold unionStep
  obtain ⟨k2, n2, m2, -⟩ :=
    assignId_spec ⟨treeAdd st.tree pc.1 pc.2, st.ids, st.verts, st.ct⟩ pc.1
      hkeys hnd
  set st2 := assignId ⟨treeAdd st.tree pc.1 pc.2, st.ids, st.verts, st.ct⟩ pc.1
    with hst2
  obtain ⟨k4, n4, m4, -⟩ :=
    assignId_spec ⟨treeTouch st2.tree pc.2, st2.ids, st2.verts, st2.ct⟩ pc.2
      k2 n2
  refine ⟨k4, n4, ?_⟩
  intro u
  rw [m4 u]
  show u ∈ st2.verts ∨ u = pc.2 ↔ _
  rw [m2 u]
  tauto

/-- The fold of `unionStep` over a pair list: alignment and
duplicate-freeness are preserved, and the vertex set grows by exactly
the endpoints of the pairs. -/
theorem unionFold_spec (L : List (Vox × Vox)) :
    ∀ (st : UnionState), st.ids.map Prod.fst = st.verts → st.verts.Nodup →
      (L.foldl unionStep st).ids.map Prod.fst = (L.foldl unionStep st).verts ∧
      (L.foldl unionStep st).verts.Nodup ∧
      ∀ u : Vox, u ∈ (L.foldl unionStep st).verts ↔
        u ∈ st.verts ∨ ∃ pc ∈ L, u = pc.1 ∨ u = pc.2 := by
  induction L with
  | nil =>
    intro st hkeys hnd
    refine ⟨hkeys, hnd, ?_⟩
    intro u
    simp
  | cons pc L ih =>
    intro st hkeys hnd
    obtain ⟨k1, n1, m1⟩ := unionStep_spec st pc hkeys hnd
    obtain ⟨k2, n2, m2⟩ := ih (unionStep st pc) k1 n1
    refine ⟨k2, n2, ?_⟩
    intro u
    rw [List.foldl_cons] at *
    rw [m2 u, m1 u]
    constructor
    · rintro ((hu | hu | hu) | ⟨qc, hqc, hu⟩)
      · exact Or.inl hu
      · exact Or.inr ⟨pc, List.mem_cons_self pc L, Or.inl hu⟩
      · exact Or.inr ⟨pc, List.mem_cons_self pc L, Or.inr hu⟩
      · exact Or.inr ⟨qc, List.mem_cons_of_mem pc hqc, hu⟩
    · rintro (hu | ⟨qc, hqc, hu⟩)
      · exact Or.inl (Or.inl hu)
      · rcases List.mem_cons.mp hqc with rfl | hqc
        · exact Or.inl (Or.inr hu)
        · exact Or.inr ⟨qc, hqc, hu⟩

/-- The first loop of `path_union` over all paths: the vertex array is
duplicate-free and holds exactly the voxels occurring in some consecutive
pair of some path. -/
theorem buildUnion_spec (paths : List (List Vox)) :
    (buildUnion paths).ids.map Prod.fst = (buildUnion paths).verts ∧
    (buildUnion paths).verts.Nodup ∧
    ∀ u : Vox, u ∈ (buildUnion paths).verts ↔
      ∃ p ∈ paths, ∃ pc ∈ consecPairs p, u = pc.1 ∨ u = pc.2 := by
  unfold buildUnion
  suffices hgen : ∀ (ps : List (List Vox)) (st : UnionState),
      st.ids.map Prod.fst = st.verts → st.verts.Nodup →
      (ps.foldl (fun st p => (consecPairs p).foldl unionStep st) st).ids.map
          Prod.fst =
        (ps.foldl (fun st p => (consecPairs p).foldl unionStep st) st).verts ∧
      (ps.foldl (fun st p => (consecPairs p).foldl unionStep st) st).verts.Nodup ∧
      ∀ u : Vox,
        u ∈ (ps.foldl (fun st p => (consecPairs p).foldl unionStep st) st).verts ↔
          u ∈ st.verts ∨ ∃ p ∈ ps, ∃ pc ∈ consecPairs p, u = pc.1 ∨ u = pc.2 by
    obtain ⟨k, n, m⟩ := hgen paths ⟨[], [], [], 0⟩ rfl List.nodup_nil
    refine ⟨k, n, ?_⟩
    intro u
    rw [m u]
    simp
  intro ps
  induction ps with
  | nil =>
    intro st hkeys hnd
    refine ⟨hkeys, hnd, ?_⟩
    intro u
    simp
  | cons p ps ih =>
    intro st hkeys hnd
    obtain ⟨k1, n1, m1⟩ := unionFold_spec (consecPairs p) st hkeys hnd
    obtain ⟨k2, n2, m2⟩ := ih ((consecPairs p).foldl unionStep st) k1 n1
    refine ⟨k2, n2, ?_⟩
    intro u
    rw [List.foldl_cons, m2 u, m1 u]
    constructor
    · rintro ((hu | ⟨pc, hpc, hu⟩) | ⟨q, hq, hpc⟩)
      · exact Or.inl hu
      · exact Or.inr ⟨p, List.mem_cons_self p ps, pc, hpc, hu⟩
      · exact Or.inr ⟨q, List.mem_cons_of_mem p hq, hpc⟩
    · rintro (hu | ⟨q, hq, pc, hpc, hu⟩)
      · exact Or.inl (Or.inl hu)
      · rcases List.mem_cons.mp hq with rfl | hq
        · exact Or.inl (Or.inr ⟨pc, hpc, hu⟩)
        · exact Or.inr ⟨q, hq, pc, hpc, hu⟩

/-- C2 amended: `path_union` assigns every voxel occurring in a
consecutive pair of some path exactly one slot of the vertex array (no
duplicates) — this half of the claim holds.  (The emitted edge list,
however, need not connect those vertices into a single tree; see the
counterexample.) -/
theorem path_union_vertices_unique (paths : List (List Vox))
    (verts : List Vox) (edges : List (ℕ × ℕ))
    (h : path_union paths = some (verts, edges)) :
    verts.Nodup ∧
    ∀ u : Vox, u ∈ verts ↔
      ∃ p ∈ paths, ∃ pc ∈ consecPairs p, u = pc.1 ∨ u = pc.2 := by
  unfold path_union at h
  cases paths with
  | nil =>
    simp only [Option.some_inj, Prod.mk.injEq] at h
    obtain ⟨hv, -⟩ := h
    subst hv
    exact ⟨List.nodup_nil, by intro u; simp⟩
  | cons p0 rest =>
    cases p0 with
    | nil => simp at h
    | cons a p0' =>
      simp only [List.head?_cons, Option.map_eq_some'] at h
      obtain ⟨es, -, heq⟩ := h
      injection heq with hv he
      subst hv
      obtain ⟨-, n, m⟩ := buildUnion_spec ((a :: p0') :: rest)
      exact ⟨n, m⟩

/-- C2 witness: a single two-vertex path. -/
theorem path_union_vertices_unique_witness :
    path_union [[((0, 0, 0) : Vox), (1, 0, 0)]] =
      some (([(0, 0, 0), (1, 0, 0)] : List Vox), ([(0, 1)] : List (ℕ × ℕ))) ∧
    (([((0, 0, 0) : Vox), (1, 0, 0)]).Nodup ∧
    ∀ u : Vox, u ∈ [((0, 0, 0) : Vox), (1, 0, 0)] ↔
      ∃ p ∈ [[((0, 0, 0) : Vox), (1, 0, 0)]], ∃ pc ∈ consecPairs p,
        u = pc.1 ∨ u = pc.2) :=
  ⟨by decide!,
    path_union_vertices_unique [[((0, 0, 0) : Vox), (1, 0, 0)]]
      [((0, 0, 0) : Vox), (1, 0, 0)] [((0, 1) : ℕ × ℕ)] (by decide!)⟩

/-- C2 counterexample: the full pipeline on a 5×3×1 T-shape (with
`scale = 0, const = 1/2` so that two separate paths get extracted)
returns six vertices but only three edges, and the vertex with dense id
5 — `(2,1,0)` — appears in no edge at all: because the extracted paths
are target-first, the DFS of `path_union` starts at the first path's tip
and never reaches the other path's branch, so the output is not a single
tree spanning the vertex array. -/
theorem path_union_not_single_tree_cex :
    TEASAR tShape wT powId fillId edtZero tLabels tDbf tOpts =
      .ok ⟨[(0, 0, 0), (1, 0, 0), (2, 0, 0), (4, 0, 0), (2, 2, 0), (2, 1, 0)],
        [(0, 1), (1, 2), (2, 3)], [1, 1, 1, 1, 1, 1]⟩ ∧
    ([((0, 1) : ℕ × ℕ), (1, 2), (2, 3)]).all
      (fun e => decide (e.1 ≠ 5) && decide (e.2 ≠ 5)) = true := by
  decide!

/-- C3 counterexample: on the single-voxel input (mask true exactly at
`(5,5,5)`, DBF 1 there, default options) `TEASAR` returns the empty
skeleton, not a one-vertex skeleton with radius `[1]`: the single
extracted path has length 1, and the pair loop of `path_union` inserts
no vertex for it. -/
theorem teasar_single_voxel_not_one_vertex :
    TEASAR c3shape wOne powId fillId edtZero c3labels c3dbf defaultOpts =
      .ok ⟨[], [], []⟩ ∧
    TEASAR c3shape wOne powId fillId edtZero c3labels c3dbf defaultOpts ≠
      .ok ⟨[(5, 5, 5)], [], [1]⟩ := by
  decide!

/-- C3 amended: on the single-voxel input `TEASAR` returns the empty
skeleton (0 vertices, 0 edges, 0 radii) without signalling an error. -/
theorem teasar_single_voxel_empty_skeleton :
    TEASAR c3shape wOne powId fillId edtZero c3labels c3dbf defaultOpts =
      .ok emptySkeleton := by
  decide!

/-- C1: on the disconnected mask `{(0,0,0), (2,0,0)}` of a 3×1×1 grid,
`compute_paths` initializes its live-voxel counter to
`count_nonzero(labels) = 2`, although the component reachable from the
chosen root `(2,0,0)` holds a single voxel — the counter is not
restricted to the reachable component, and no dedicated error is raised
before or at extraction: the run aborts inside path reconstruction (the
spec model's unvisited-sentinel chase; per the spec, the source loop
would simply never terminate). -/
theorem compute_paths_counts_unreachable_voxels :
    countNonzero discShape discLabels = 2 ∧
    find_root discShape wOne discLabels = some (2, 0, 0) ∧
    reachable26 discShape discLabels (2, 0, 0) = [(2, 0, 0)] ∧
    TEASAR discShape wOne powId fillId edtZero discLabels discDbf
      defaultOpts = .crash := by
  decide!

/-- C9 counterexample: `TEASAR` performs no option validation.  With
`pdrf_exponent = 0` it runs to completion and returns a skeleton; with
`path_downsample = 0` it fails only in the downsampling step — after
root selection, traversal and path extraction — with numpy's
slice-step error, not a dedicated `InvalidOption`; with negative
`scale`/`const` the invalidation cuboids are empty and the extraction
loop never terminates. -/
theorem teasar_no_option_validation_cex :
    TEASAR c3shape wOne powId fillId edtZero c3labels c3dbf optsExpZero =
      .ok ⟨[], [], []⟩ ∧
    TEASAR c3shape wOne powId fillId edtZero c3labels c3dbf optsStrideZero =
      .sliceStepZero ∧
    TEASAR c3shape wOne powId fillId edtZero c3labels c3dbf optsNeg =
      .diverges := by
  decide!

/-- C7: in soma mode (`max DBF > soma_detection_threshold`) the root the
`TEASAR` prologue chooses is the arg-max voxel of the DBF recomputed
after binary hole-filling and a fresh EDT of the filled mask, and that
voxel attains the maximum of the recomputed DBF over the grid. -/
theorem teasar_soma_root_argmax (s : Shape) (w : Vox → Vox → ℚ)
    (fill : (Vox → Bool) → Vox → Bool) (edtF : (Vox → Bool) → Vox → ℚ)
    (labels0 : Vox → Bool) (DBF0 : Vox → ℚ) (thr sis sic : ℚ)
    (h : maxOverGrid s DBF0 > thr) :
    (teasarPrep s w fill edtF labels0 DBF0 thr sis sic).root =
      some (argmaxGrid s (edtF (fill labels0))) ∧
    ∀ v ∈ voxelList s,
      edtF (fill labels0) v ≤
        edtF (fill labels0) (argmaxGrid s (edtF (fill labels0))) := by
  constructor
  · unfold teasarPrep
    rw [if_pos h]
  · exact argmaxGrid_attains s _

/-- C7 witness: a 1×1×2 soma scenario with original DBF max `6` above
the threshold `5`, whose recomputed EDT peaks at `(0,0,1)`. -/
theorem teasar_soma_root_argmax_witness :
    maxOverGrid somaShape somaDbf0 > 5 ∧
    ((teasarPrep somaShape wOne fillId somaEdt somaLabels0 somaDbf0 5
        (1 / 2) 0).root =
      some (argmaxGrid somaShape (somaEdt (fillId somaLabels0))) ∧
    ∀ v ∈ voxelList somaShape,
      somaEdt (fillId somaLabels0) v ≤
        somaEdt (fillId somaLabels0)
          (argmaxGrid somaShape (somaEdt (fillId somaLabels0)))) :=
  ⟨by decide!,
    teasar_soma_root_argmax somaShape wOne fillId somaEdt somaLabels0
      somaDbf0 5 (1 / 2) 0 (by decide!)⟩

/-- C8: for every input whose mask contains no true voxel (and hence,
by the data-model invariant `DBF > 0 iff in-mask`, an all-zero DBF) and
a nonnegative soma threshold, `TEASAR` returns the empty skeleton and
signals no error. -/
theorem teasar_empty_mask_empty_skeleton (s : Shape) (w : Vox → Vox → ℚ)
    (pow101 : ℚ → ℚ) (fill : (Vox → Bool) → Vox → Bool)
    (edtF : (Vox → Bool) → Vox → ℚ) (labels0 : Vox → Bool) (DBF0 : Vox → ℚ)
    (o : TeasarOpts) (hl : ∀ v, labels0 v = false) (hd : ∀ v, DBF0 v = 0)
    (ht : 0 ≤ o.soma_detection_threshold) :
    TEASAR s w pow101 fill edtF labels0 DBF0 o = .ok emptySkeleton := by
  have hmax : maxOverGrid s DBF0 = 0 := maxOverGrid_zero s DBF0 hd
  have hcond : ¬ (maxOverGrid s DBF0 > o.soma_detection_threshold) := by
    rw [hmax]
    exact not_lt.mpr ht
  have hfl : first_label s labels0 = none := by
    unfold first_label
    apply List.find?_eq_none.mpr
    intro v _
    rw [hl v]
    exact Bool.false_ne_true
  have hroot : (teasarPrep s w fill edtF labels0 DBF0
      o.soma_detection_threshold o.soma_invalidation_scale
      o.soma_invalidation_const).root = none := by
    unfold teasarPrep
    rw [if_neg hcond]
    show find_root s w labels0 = none
    unfold find_root
    rw [hfl]
  simp only [TEASAR, hroot]

/-- C8 witness: the all-false 1×1×1 mask under default options. -/
theorem teasar_empty_mask_empty_skeleton_witness :
    (∀ v : Vox, (fun _ : Vox => false) v = false) ∧
    (∀ v : Vox, (fun _ : Vox => (0 : ℚ)) v = 0) ∧
    (0 : ℚ) ≤ defaultOpts.soma_detection_threshold ∧
    TEASAR (1, 1, 1) wOne powId fillId edtZero (fun _ => false) (fun _ => 0)
      defaultOpts = .ok emptySkeleton :=
  ⟨fun _ => rfl, fun _ => rfl, by decide!,
    teasar_empty_mask_empty_skeleton (1, 1, 1) wOne powId fillId edtZero
      (fun _ => false) (fun _ => 0) defaultOpts (fun _ => rfl) (fun _ => rfl)
      (by decide!)⟩

/-- Every path downsamples successfully when the stride is nonzero. -/
theorem downsampleAll_isSome (k : ℕ) (hk : k ≠ 0) :
    ∀ ps : List (List Vox), ∃ qs, downsampleAll k ps = some qs := by
  intro ps
  induction ps with
  | nil => exact ⟨[], rfl⟩
  | cons p rest ih =>
    obtain ⟨qs, hqs⟩ := ih
    exact ⟨(everyK k (p.take (p.length - 2)) ++ lastSlice p) :: qs,
      by simp [downsampleAll, downsamplePath, hk, hqs]⟩

/-- C9 amended: `TEASAR` performs no upfront option validation and has
no `InvalidOption` outcome at all; the only error it can signal is the
slice-step failure of the downsampling stage, which cannot occur when
`path_downsample ≥ 1` — every other invalid option (zero exponent,
negative physical units) is passed straight into the algorithm. -/
theorem teasar_error_only_from_zero_stride (s : Shape) (w : Vox → Vox → ℚ)
    (pow101 : ℚ → ℚ) (fill : (Vox → Bool) → Vox → Bool)
    (edtF : (Vox → Bool) → Vox → ℚ) (labels0 : Vox → Bool) (DBF0 : Vox → ℚ)
    (o : TeasarOpts) (hk : 1 ≤ o.path_downsample) :
    TEASAR s w pow101 fill edtF labels0 DBF0 o ≠ .sliceStepZero := by
  unfold TEASAR
  cases hroot : (teasarPrep s w fill edtF labels0 DBF0
      o.soma_detection_threshold o.soma_invalidation_scale
      o.soma_invalidation_const).root with
  | none => simp [hroot]
  | some root =>
    simp only [hroot]
    cases hp : teasarPathsFrom s w pow101
        (teasarPrep s w fill edtF labels0 DBF0 o.soma_detection_threshold
          o.soma_invalidation_scale o.soma_invalidation_const) root o with
    | crash => simp [hp]
    | diverges => simp [hp]
    | ok paths =>
      simp only [hp]
      obtain ⟨qs, hqs⟩ :=
        downsampleAll_isSome o.path_downsample (by omega) paths
      rw [hqs]
      cases hpu : path_union qs with
      | none => simp [hpu]
      | some ve => simp [hpu]

/-- C9 witness: the default stride 1 on a concrete invocation. -/
theorem teasar_error_only_from_zero_stride_witness :
    1 ≤ defaultOpts.path_downsample ∧
    TEASAR (1, 1, 1) wOne powId fillId edtZero (fun _ => false) (fun _ => 0)
      defaultOpts ≠ .sliceStepZero :=
  ⟨by decide,
    teasar_error_only_from_zero_stride (1, 1, 1) wOne powId fillId edtZero
      (fun _ => false) (fun _ => 0) defaultOpts (by decide)⟩
